import Mathlib

/-!
Shallow embedding of `docs/make_chapters.py`, the literate-documentation
generator of this repository: line classification (`make_lines`), block
grouping (`lines_to_blocks`), block rendering (`Block.__str__` /
`CodeBlock.__str__`) and file rendering (`File`).

Raw text is modelled as `List Char`.  Each Python regular expression used by
the script is translated into an explicit Lean function on character lists,
with a comment stating the regex it embeds.
-/

/-- Python's `\s` character class, restricted to its ASCII members
(space, tab, newline, carriage return, vertical tab, form feed);
the script only ever meets ASCII whitespace. -/
def isPySpace (c : Char) : Bool :=
  c = ' ' || c = '\t' || c = '\n' || c = '\r' || c = '\x0b' || c = '\x0c'

/-- `needle` is a prefix of `haystack` (decidable, on characters). -/
def list_starts_with : List Char → List Char → Bool
  | [], _ => true
  | _ :: _, [] => false
  | a :: as, b :: bs => a == b && list_starts_with as bs

/-- `re.match(r"\s*M\s*([^\n]*)", line)` for a literal marker `M`
(`//` when the language is `rs`, `#` otherwise): `re.match` anchors at the
start of the string, `\s*` greedily eats whitespace, so the marker matches
exactly when the line with its leading whitespace removed starts with `M`;
the captured group is then the text after the marker, with the whitespace
following the marker dropped, up to (excluding) the first newline.
Returns the captured group, or `none` when there is no match. -/
def comment_indicator_match (marker : List Char) (line : List Char) : Option (List Char) :=
  let rest := line.dropWhile isPySpace
  if list_starts_with marker rest then
    some (((rest.drop marker.length).dropWhile isPySpace).takeWhile (fun c => c ≠ '\n'))
  else
    none

/-- `re.match(r"([^\n]*)", line)`: always matches; the captured group is the
line up to (excluding) the first newline. -/
def clean_line_match (line : List Char) : Option (List Char) :=
  some (line.takeWhile (fun c => c ≠ '\n'))

/-- The comment marker chosen by `make_lines`:
`//` when `language == "rs"`, `#` for every other language tag. -/
def comment_marker (language : List Char) : List Char :=
  if language = "rs".data then "//".data else "#".data

/-- A document line: `CommentLine` (prose) or `CodeLine` (code),
mirroring the two `Line` subclasses of the script. -/
inductive Line where
  | CommentLine (content : List Char)
  | CodeLine (content : List Char)
deriving DecidableEq, Repr

/-- `type(line) == CodeLine`. -/
def Line.isCode : Line → Bool
  | .CodeLine _ => true
  | .CommentLine _ => false

/-- `Line.__str__`: the line's content. -/
def Line.str : Line → List Char
  | .CommentLine c => c
  | .CodeLine c => c

/-- The body of the `for` loop of `make_lines`: a raw line is classified as a
`CommentLine` carrying the captured remainder when the comment-indicator regex
matches, and otherwise as a `CodeLine` carrying the group captured by
`clean_line_re` (the generator yields nothing in the unreachable case where
that second match were `None`). -/
def classify_line (language : List Char) (line : List Char) : Option Line :=
  match comment_indicator_match (comment_marker language) line with
  | some captured => some (Line.CommentLine captured)
  | none =>
    match clean_line_match line with
    | some cleaned => some (Line.CodeLine cleaned)
    | none => none

/-- `make_lines(raw_lines, language)`: classify every raw line in order,
keeping exactly those for which the loop body yields a line. -/
def make_lines (raw_lines : List (List Char)) (language : List Char) : List Line :=
  raw_lines.filterMap (classify_line language)

/-- A block of lines: `plain` mirrors the base class `Block` (prose),
`CodeBlock` mirrors the subclass `CodeBlock` with its `language` tag. -/
inductive Block where
  | plain (lines : List Line)
  | CodeBlock (language : List Char) (lines : List Line)
deriving DecidableEq, Repr

/-- The `lines` attribute of a block. -/
def Block.lines : Block → List Line
  | .plain ls => ls
  | .CodeBlock _ ls => ls

/-- `type(block) == CodeBlock`. -/
def Block.isCode : Block → Bool
  | .plain _ => false
  | .CodeBlock _ _ => true

/-- `Block.add_line`: append a line to the block. -/
def Block.add_line : Block → Line → Block
  | .plain ls, l => .plain (ls ++ [l])
  | .CodeBlock lang ls, l => .CodeBlock lang (ls ++ [l])

/-- `lines_to_blocks`, new-block construction: a `CodeLine` starts a
`CodeBlock(language)`, every other line starts a plain `Block()`. -/
def new_block_of (language : List Char) (line : Line) : Block :=
  match line with
  | .CodeLine _ => .CodeBlock language []
  | .CommentLine _ => .plain []

/-- `type(last_block.lines[-1]) != type(line)`.  In the script the block at
hand always holds at least one line; on an (unreachable) empty block the
script would raise `IndexError`, modelled here as `true`. -/
def last_line_differs (b : Block) (line : Line) : Bool :=
  match b.lines.getLast? with
  | some last => last.isCode != line.isCode
  | none => true

/-- The `for` loop of `lines_to_blocks`: state is `last_block`
(`None` before the first line).  Returns the list of blocks yielded inside
the loop together with the final value of `last_block`. -/
def lines_to_blocks_loop (language : List Char) :
    Option Block → List Line → List Block × Option Block
  | last_block, [] => ([], last_block)
  | none, line :: rest =>
    lines_to_blocks_loop language (some ((new_block_of language line).add_line line)) rest
  | some b, line :: rest =>
    if last_line_differs b line then
      let out := lines_to_blocks_loop language
        (some ((new_block_of language line).add_line line)) rest
      (b :: out.1, out.2)
    else
      lines_to_blocks_loop language (some (b.add_line line)) rest

/-- `lines_to_blocks(lines, language)`: the blocks yielded inside the loop,
followed by the unconditional final `yield last_block`.  The final yield
hands out whatever `last_block` holds — on empty input that is Python's
`None`, hence the `Option Block` item type. -/
def lines_to_blocks (lines : List Line) (language : List Char) : List (Option Block) :=
  let out := lines_to_blocks_loop language none lines
  (out.1.map some) ++ [out.2]

/-- `Block.__str__` / `CodeBlock.__str__`: a plain block joins its lines'
contents with newlines; a code block wraps them in
`"\n```{language}\n"` … `"\n```\n"`. -/
def Block.str : Block → List Char
  | .plain ls => List.intercalate "\n".data (ls.map Line.str)
  | .CodeBlock language ls =>
    "\n```".data ++ language ++ "\n".data ++
      List.intercalate "\n".data (ls.map Line.str) ++ "\n```\n".data

/-- `str` applied to an item yielded by `lines_to_blocks`:
Python renders `None` as the text `None`. -/
def opt_block_str : Option Block → List Char
  | none => "None".data
  | some b => b.str

/-- The last `/`-separated component of a (normalised, POSIX) path string:
`pathlib.PurePath.name`. -/
def path_name (path : List Char) : List Char :=
  (path.reverse.takeWhile (fun c => c ≠ '/')).reverse

/-- `pathlib.PurePath.suffix` of a normalised POSIX path string: the final
component's extension including its dot — empty when the name has no dot, or
the only dot is its first character, or the dot is its last character. -/
def path_suffix (path : List Char) : List Char :=
  let name := path_name path
  let ext := name.reverse.takeWhile (fun c => c ≠ '.')
  if ext.length = name.length then []
  else if ext.length = 0 then []
  else if ext.length = name.length - 1 then []
  else '.' :: ext.reverse

/-- `re.match(r".([^\n]*)", path.suffix).group(1)`: `.` matches any single
non-newline character, the group captures the remainder up to a newline.
`none` models the `AttributeError` the script raises when the suffix is empty
(`re.match` returns `None` and `.group(1)` fails). -/
def suffix_language (suffix : List Char) : Option (List Char) :=
  match suffix with
  | [] => none
  | c :: rest => if c = '\n' then none else some (rest.takeWhile (fun ch => ch ≠ '\n'))

/-- `File.__init__`'s language resolution: the override when one is given,
otherwise the language derived from the path's suffix. -/
def File_language (path : List Char) (language : Option (List Char)) : Option (List Char) :=
  match language with
  | some l => some l
  | none => suffix_language (path_suffix path)

/-- `File` built from `path` and the file's raw lines, rendered by
`File.__str__`: the heading `"### {path}\n\n"` followed by the blocks'
string forms joined by a newline.  `none` models the construction failing
in language derivation. -/
def File_str (path : List Char) (raw_lines : List (List Char))
    (language : Option (List Char)) : Option (List Char) :=
  match File_language path language with
  | none => none
  | some lang =>
    some ("### ".data ++ path ++ "\n\n".data ++
      List.intercalate "\n".data
        ((lines_to_blocks (make_lines raw_lines lang) lang).map opt_block_str))

/-- The block-rendering part of `File.__str__` (everything after the
heading): classify, group, render each yielded item, join by newline. -/
def render_blocks (raw_lines : List (List Char)) (language : List Char) : List Char :=
  List.intercalate "\n".data
    ((lines_to_blocks (make_lines raw_lines language) language).map opt_block_str)

/-! ## Helper lemmas -/

lemma Block.add_line_lines (b : Block) (l : Line) : (b.add_line l).lines = b.lines ++ [l] := by
  cases b <;> rfl

lemma Block.add_line_isCode (b : Block) (l : Line) : (b.add_line l).isCode = b.isCode := by
  cases b <;> rfl

lemma new_block_of_lines (language : List Char) (l : Line) :
    (new_block_of language l).lines = [] := by
  cases l <;> rfl

lemma new_block_of_isCode (language : List Char) (l : Line) :
    (new_block_of language l).isCode = l.isCode := by
  cases l <;> rfl

/-- Invariant of the grouping loop: the block at hand is non-empty and all of
its lines have the kind of the block itself. -/
def goodBlock (b : Block) : Prop :=
  b.lines ≠ [] ∧ ∀ l ∈ b.lines, l.isCode = b.isCode

lemma goodBlock_start (language : List Char) (line : Line) :
    goodBlock ((new_block_of language line).add_line line) := by
  constructor
  · rw [Block.add_line_lines, new_block_of_lines]
    simp
  · intro l hl
    rw [Block.add_line_lines, new_block_of_lines] at hl
    simp at hl
    subst hl
    rw [Block.add_line_isCode, new_block_of_isCode]

lemma last_line_differs_of_good (b : Block) (hb : goodBlock b) (line : Line) :
    last_line_differs b line = (b.isCode != line.isCode) := by
  unfold last_line_differs
  cases h : b.lines.getLast? with
  | none => exact absurd (List.getLast?_eq_none_iff.mp h) hb.1
  | some last =>
    have hmem : last ∈ b.lines := List.mem_of_getLast?_eq_some h
    show (last.isCode != line.isCode) = (b.isCode != line.isCode)
    rw [hb.2 last hmem]

lemma goodBlock_extend (b : Block) (hb : goodBlock b) (line : Line)
    (hkind : b.isCode = line.isCode) : goodBlock (b.add_line line) := by
  constructor
  · rw [Block.add_line_lines]
    simp
  · intro l hl
    rw [Block.add_line_lines] at hl
    rw [Block.add_line_isCode]
    rcases List.mem_append.mp hl with h | h
    · exact hb.2 l h
    · rw [List.mem_singleton] at h
      subst h
      exact hkind.symm

/-- Main induction on the grouping loop, started on a good block `b`:
the loop terminates with a final block, the emitted blocks followed by the
final block alternate in kind, the first of them has the kind of `b`, and
their lines concatenate to `b`'s lines followed by the remaining input. -/
lemma lines_to_blocks_loop_spec (language : List Char) (ls : List Line) :
    ∀ b : Block, goodBlock b →
    ∃ ys b', lines_to_blocks_loop language (some b) ls = (ys, some b') ∧
      List.Chain' (fun x y => x.isCode ≠ y.isCode) (ys ++ [b']) ∧
      (ys ++ [b']).head?.map Block.isCode = some b.isCode ∧
      (ys ++ [b']).flatMap Block.lines = b.lines ++ ls := by
  induction ls with
  | nil =>
    intro b hb
    exact ⟨[], b, rfl, List.chain'_singleton b, rfl, by simp⟩
  | cons line rest ih =>
    intro b hb
    by_cases hkind : b.isCode = line.isCode
    · have hdiff : last_line_differs b line = false := by
        rw [last_line_differs_of_good b hb line, hkind]
        simp
      obtain ⟨ys, b', heq, hchain, hhead, hflat⟩ :=
        ih (b.add_line line) (goodBlock_extend b hb line hkind)
      refine ⟨ys, b', ?_, hchain, ?_, ?_⟩
      · simp [lines_to_blocks_loop, hdiff, heq]
      · rw [hhead, Block.add_line_isCode]
      · rw [hflat, Block.add_line_lines, List.append_assoc]
        rfl
    · have hdiff : last_line_differs b line = true := by
        rw [last_line_differs_of_good b hb line]
        exact bne_iff_ne.mpr hkind
      obtain ⟨ys, b', heq, hchain, hhead, hflat⟩ :=
        ih ((new_block_of language line).add_line line) (goodBlock_start language line)
      have hstart : ((new_block_of language line).add_line line).lines = [line] := by
        rw [Block.add_line_lines, new_block_of_lines]
        rfl
      have hstartk : ((new_block_of language line).add_line line).isCode = line.isCode := by
        rw [Block.add_line_isCode, new_block_of_isCode]
      refine ⟨b :: ys, b', ?_, ?_, ?_, ?_⟩
      · simp [lines_to_blocks_loop, hdiff, heq]
      · rw [List.cons_append, List.chain'_cons']
        refine ⟨?_, hchain⟩
        intro y hy
        have : (ys ++ [b']).head? = some y := hy
        rw [this, hstartk] at hhead
        have hyk : y.isCode = line.isCode := by
          simpa using hhead
        rw [hyk]
        exact hkind
      · rw [List.cons_append]
        rfl
      · rw [List.cons_append, List.flatMap_cons, hflat, hstart]
        rfl

lemma reduceOption_map_some {α : Type} (l : List α) : (l.map some).reduceOption = l := by
  induction l with
  | nil => rfl
  | cons x xs ih => rw [List.map_cons, List.reduceOption_cons_of_some, ih]

/-! ## Claim theorems -/

/-- C1: on the empty sequence of `Line`s, the grouping generator still runs
its unconditional final `yield last_block` with `last_block` never assigned,
so it yields the single item `None` (one null block) instead of yielding
nothing. -/
theorem lines_to_blocks_empty_yields_none (language : List Char) :
    lines_to_blocks [] language = [none] := rfl

/-- C2: concatenating the lines of all blocks yielded by `lines_to_blocks`,
in order, reproduces the input line sequence exactly. -/
theorem lines_to_blocks_partition (lines : List Line) (language : List Char) :
    ((lines_to_blocks lines language).reduceOption).flatMap Block.lines = lines := by
  cases lines with
  | nil => rfl
  | cons line rest =>
    obtain ⟨ys, b', heq, _, _, hflat⟩ :=
      lines_to_blocks_loop_spec language rest
        ((new_block_of language line).add_line line) (goodBlock_start language line)
    have hloop : lines_to_blocks_loop language none (line :: rest) = (ys, some b') := by
      simp [lines_to_blocks_loop, heq]
    rw [lines_to_blocks]
    rw [hloop]
    rw [List.reduceOption_append, reduceOption_map_some]
    have hone : ([some b'] : List (Option Block)).reduceOption = [b'] := rfl
    rw [hone, hflat, Block.add_line_lines, new_block_of_lines]
    rfl

/-- C3: no two adjacent blocks yielded by `lines_to_blocks` have the same
kind (prose vs code). -/
theorem lines_to_blocks_maximality (lines : List Line) (language : List Char) :
    List.Chain' (fun x y => Block.isCode x ≠ Block.isCode y)
      ((lines_to_blocks lines language).reduceOption) := by
  cases lines with
  | nil => exact List.chain'_nil
  | cons line rest =>
    obtain ⟨ys, b', heq, hchain, _, _⟩ :=
      lines_to_blocks_loop_spec language rest
        ((new_block_of language line).add_line line) (goodBlock_start language line)
    have hloop : lines_to_blocks_loop language none (line :: rest) = (ys, some b') := by
      simp [lines_to_blocks_loop, heq]
    rw [lines_to_blocks]
    rw [hloop]
    rw [List.reduceOption_append, reduceOption_map_some]
    have hone : ([some b'] : List (Option Block)).reduceOption = [b'] := rfl
    rw [hone]
    exact hchain

lemma classify_line_total (language line : List Char) :
    classify_line language line = some (
      match comment_indicator_match (comment_marker language) line with
      | some captured => Line.CommentLine captured
      | none => Line.CodeLine (line.takeWhile (fun c => c ≠ '\n'))) := by
  unfold classify_line clean_line_match
  cases comment_indicator_match (comment_marker language) line <;> rfl

/-- C4: `make_lines` produces exactly one `Line` per raw input line — the
cleaning regex always matches, so no line is ever skipped. -/
theorem make_lines_totality (raw_lines : List (List Char)) (language : List Char) :
    (make_lines raw_lines language).length = raw_lines.length := by
  induction raw_lines with
  | nil => rfl
  | cons l ls ih =>
    rw [make_lines, List.filterMap_cons, classify_line_total]
    simpa [make_lines] using ih

/-- C5: classification of a single raw line.  When the line, ignoring leading
whitespace, starts with the language's comment marker, the result is a
`CommentLine` whose content is the remainder after the marker with the
whitespace following the marker dropped and the trailing newline excluded;
otherwise it is a `CodeLine` carrying the raw line up to (excluding) its
trailing newline; a bare newline gives a `CodeLine` with empty content. -/
theorem make_lines_classification (line language : List Char) :
    (list_starts_with (comment_marker language) (line.dropWhile isPySpace) = true →
      make_lines [line] language =
        [Line.CommentLine ((((line.dropWhile isPySpace).drop
            (comment_marker language).length).dropWhile isPySpace).takeWhile
              (fun c => c ≠ '\n'))]) ∧
    (list_starts_with (comment_marker language) (line.dropWhile isPySpace) = false →
      make_lines [line] language = [Line.CodeLine (line.takeWhile (fun c => c ≠ '\n'))]) ∧
    make_lines ["\n".data] language = [Line.CodeLine []] := by
  refine ⟨?_, ?_, ?_⟩
  · intro h
    simp [make_lines, classify_line, comment_indicator_match, h]
  · intro h
    simp [make_lines, classify_line, comment_indicator_match, clean_line_match, h]
  · have hcm : comment_indicator_match (comment_marker language) "\n".data = none := by
      rw [comment_marker]
      by_cases hl : language = "rs".data
      · rw [if_pos hl]
        rfl
      · rw [if_neg hl]
        rfl
    have hc : classify_line language "\n".data = some (Line.CodeLine []) := by
      rw [classify_line_total, hcm]
      rfl
    simp [make_lines, hc]

/-- C5 witness: `"  # hello world\n"` with language `"py"` classifies as a
prose line with content `"hello world"`. -/
theorem make_lines_classification_witness :
    make_lines ["  # hello world\n".data] "py".data =
      [Line.CommentLine "hello world".data] := by
  have h := (make_lines_classification "  # hello world\n".data "py".data).1 (by decide)
  rw [h]
  decide

/-- C6: the `//` marker is selected exactly for the tag `"rs"`; every other
tag (known or not) uses `#`, and `"// note\n"` is prose under `"rs"` but code
under `"py"`. -/
theorem comment_marker_selection (language : List Char) :
    (comment_marker language = "//".data ↔ language = "rs".data) ∧
    (language ≠ "rs".data → comment_marker language = "#".data) ∧
    make_lines ["// note\n".data] "rs".data = [Line.CommentLine "note".data] ∧
    make_lines ["// note\n".data] "py".data = [Line.CodeLine "// note".data] := by
  refine ⟨⟨?_, ?_⟩, ?_, by decide, by decide⟩
  · intro h
    by_contra hne
    rw [comment_marker, if_neg hne] at h
    exact absurd h (by decide)
  · intro h
    rw [comment_marker, if_pos h]
  · intro h
    rw [comment_marker, if_neg h]

/-- C6 witness: the tag `"py"` is not `"rs"`, so its marker is `#`. -/
theorem comment_marker_selection_witness :
    comment_marker "py".data = "#".data :=
  (comment_marker_selection "py".data).2.1 (by decide)

/-- C7 counterexample: with language `"rs"` the comment marker is `//`, so
`"# intro text\n"` is classified as code; the three lines form a single code
block and the rendered output is not the claimed string. -/
theorem round_trip_counterexample :
    render_blocks
        ["# intro text\n".data, "fn main() {}\n".data, "fn done() {}\n".data]
        "rs".data ≠
      "intro text\n\n```rs\nfn main() {}\nfn done() {}\n```\n".data := by
  decide

/-- C7 amended: with the prose line written with the `rs` marker
(`"// intro text\n"`), the pipeline groups one prose block and one code block
and renders exactly the claimed string. -/
theorem round_trip_amended :
    make_lines ["// intro text\n".data, "fn main() {}\n".data, "fn done() {}\n".data]
        "rs".data =
      [Line.CommentLine "intro text".data, Line.CodeLine "fn main() {}".data,
        Line.CodeLine "fn done() {}".data] ∧
    lines_to_blocks
        (make_lines ["// intro text\n".data, "fn main() {}\n".data, "fn done() {}\n".data]
          "rs".data) "rs".data =
      [some (Block.plain [Line.CommentLine "intro text".data]),
        some (Block.CodeBlock "rs".data
          [Line.CodeLine "fn main() {}".data, Line.CodeLine "fn done() {}".data])] ∧
    render_blocks ["// intro text\n".data, "fn main() {}\n".data, "fn done() {}\n".data]
        "rs".data =
      "intro text\n\n```rs\nfn main() {}\nfn done() {}\n```\n".data :=
  ⟨rfl, rfl, rfl⟩

lemma map_str_codeLine (contents : List (List Char)) :
    (contents.map Line.CodeLine).map Line.str = contents := by
  induction contents with
  | nil => rfl
  | cons c cs ih => simp [ih, Line.str]

/-- C8: rendering a non-empty code block yields a leading blank line, an
opening fence of three backticks immediately followed by the language tag,
the contents joined by newlines, then a closing three-backtick fence followed
by a blank line. -/
theorem codeblock_render (language : List Char) (contents : List (List Char))
    (_h : contents ≠ []) :
    Block.str (Block.CodeBlock language (contents.map Line.CodeLine)) =
      "\n".data ++ ("```".data ++ language) ++ "\n".data ++
        List.intercalate "\n".data contents ++ "\n".data ++ "```".data ++ "\n".data := by
  simp only [Block.str, map_str_codeLine]
  simp [List.append_assoc]

/-- C8 witness: a one-line `rs` code block renders with the exact fencing. -/
theorem codeblock_render_witness :
    (["fn main() {}".data] : List (List Char)) ≠ [] ∧
    Block.str (Block.CodeBlock "rs".data (["fn main() {}".data].map Line.CodeLine)) =
      "\n".data ++ ("```".data ++ "rs".data) ++ "\n".data ++
        List.intercalate "\n".data ["fn main() {}".data] ++ "\n".data ++ "```".data ++
        "\n".data :=
  ⟨by decide, codeblock_render "rs".data ["fn main() {}".data] (by decide)⟩

/-- C9: whenever the rendered `File` exists, it starts with the heading
`"### {path}\n\n"`; and with no override, a path whose suffix is `.ext`
(no newline in `ext`) resolves to the language tag `ext`. -/
theorem file_render (path : List Char) (raw_lines : List (List Char))
    (language : Option (List Char)) :
    (∀ s, File_str path raw_lines language = some s →
      ∃ rest, s = "### ".data ++ path ++ "\n\n".data ++ rest) ∧
    (∀ ext, path_suffix path = '.' :: ext → '\n' ∉ ext →
      File_language path none = some ext) := by
  constructor
  · intro s hs
    unfold File_str at hs
    cases hlang : File_language path language with
    | none =>
      rw [hlang] at hs
      exact absurd hs (by simp)
    | some lang =>
      rw [hlang] at hs
      simp only [Option.some.injEq] at hs
      exact ⟨_, hs.symm⟩
  · intro ext hsuf hnl
    show suffix_language (path_suffix path) = some ext
    rw [hsuf]
    show (if ('.' : Char) = '\n' then none
      else some (ext.takeWhile (fun ch => ch ≠ '\n'))) = some ext
    rw [if_neg (by decide)]
    have : ext.takeWhile (fun ch => ch ≠ '\n') = ext :=
      List.takeWhile_eq_self_iff.mpr (fun a ha => decide_eq_true (fun heq => hnl (heq ▸ ha)))
    rw [this]

/-- C9 witness: for path `"amp/src/lib.rs"` the render starts with
`"### amp/src/lib.rs\n\n"` and the derived language tag is `"rs"`. -/
theorem file_render_witness :
    (∃ rest, "### amp/src/lib.rs\n\nhi".data =
      "### ".data ++ "amp/src/lib.rs".data ++ "\n\n".data ++ rest) ∧
    File_language "amp/src/lib.rs".data none = some "rs".data :=
  ⟨(file_render "amp/src/lib.rs".data ["// hi\n".data] none).1
      "### amp/src/lib.rs\n\nhi".data (by decide),
    (file_render "amp/src/lib.rs".data [] none).2 "rs".data (by decide) (by decide)⟩

/-- C10: a path with empty suffix and no override makes language derivation
fail (the extension regex has nothing to match), so no `File` is built and no
default language is substituted. -/
theorem file_no_extension_fails (path : List Char) (h : path_suffix path = [])
    (raw_lines : List (List Char)) :
    File_language path none = none ∧ File_str path raw_lines none = none := by
  have hlang : File_language path none = none := by
    show suffix_language (path_suffix path) = none
    rw [h]
    rfl
  refine ⟨hlang, ?_⟩
  unfold File_str
  rw [hlang]

/-- C10 witness: the extensionless path `"README"` has empty suffix, so the
language cannot be derived and the render does not exist. -/
theorem file_no_extension_fails_witness :
    path_suffix "README".data = [] ∧
    File_language "README".data none = none ∧
    File_str "README".data ["fn main() {}\n".data] none = none :=
  ⟨by decide,
    (file_no_extension_fails "README".data (by decide) ["fn main() {}\n".data]).1,
    (file_no_extension_fails "README".data (by decide) ["fn main() {}\n".data]).2⟩
